import Mathlib

/-!
Shallow embedding of `code_annotations/contrib/sphinx/extensions/openedx_events.py`.

The Python module defines a Sphinx directive `OpenedxEvents` whose `iter_nodes`
method walks an events mapping (dict from dotted event-type identifier to a
record of annotation fields), in sorted key order, and builds docutils section
nodes grouped by the 3rd ("architectural subdomain") and 4th ("subject")
dot-separated segments of each identifier.

Embedding choices:

* A record (a Python dict of annotation fields) is an association list
  `List (String × String)`; `event[k]` is `List.lookup` that throws `keyError`
  on a missing key, and `event.get(k, "")` is `lookup` with default `""`.
* docutils nodes are the inductive `Node`.  `nodes.section("", ids=...)` holds
  its ids and its appended children; `nodes.title`, `nodes.paragraph`,
  `nodes.Text` and `nodes.literal` hold their text.  `parent += child` is
  modelled by appending to the parent's child list.
* The Python loop mutates `domain_header` and `subject_header` objects that may
  already be attached (a subject section is a child of its domain section when
  events are later appended to it, and a domain header can still gain children
  through its subject after having been yielded).  To model this aliasing the
  state keeps flat arenas: `subjects` is the list of all subject sections
  created so far (name and appended event sections, in creation order) and
  `domains` the list of all domain sections created so far (name and the
  indices into `subjects` of its attached subject children, in attachment
  order).  `domain_header`/`subject_header` are always the most recently
  created entries, so "the current header" is the last element of each arena;
  `domain_header is None` (resp. `subject_header is None`) iff the arena is
  empty.  The generator yields every created domain header exactly once (each
  one either when it is replaced or, for the last one, at the end; a created
  header is truthy since it immediately receives a title child), so the list
  returned by `run()` is the materialisation of the `domains` arena in order.
* Python exceptions are the `Except PyErr` monad: `event_type.split(".")[2]`
  out of range raises `indexError`, `None += node` raises `typeError`, and a
  missing dict key raises `keyError`.
* `sorted(events)` sorts the keys lexicographically by code point:
  `List.insertionSort` with the comparison `pyLe`, a structurally recursive
  code-point comparison proved (`pyLe_iff`) to agree with the library order
  on `String`.
-/

/-- docutils node model: sections with ids and children; titles, paragraphs,
inline `Text` and `literal` leaves with their text content. -/
inductive Node : Type where
  | sect (ids : List String) (children : List Node)
  | title (text : String) (ids : List String)
  | paragraph (children : List Node)
  | text (s : String)
  | literal (text : String)

/-- A Python exception escaping `iter_nodes`. -/
inductive PyErr : Type where
  | indexError
  | typeError
  | keyError
deriving DecidableEq, Repr

/-- An annotation record: the Python dict for a single event. -/
abbrev Record := List (String × String)

/-- Dict subscript `event[k]`, raising `KeyError` when the key is missing. -/
def getField (event : Record) (k : String) : Except PyErr String :=
  match List.lookup k event with
  | some v => Except.ok v
  | none => Except.error PyErr.keyError

/-- Dict access `event.get(k, d)` with a default. -/
def getFieldD (event : Record) (k : String) (d : String) : String :=
  (List.lookup k event).getD d

/-- The event section node built by the loop body, given the six field values
(`event_key_field` is rendered only when truthy, i.e. non-empty). -/
def mkEventSectionCore (event_type event_name event_data event_key_field
    event_description filename line_number : String) : Node :=
  Node.sect ["openedxevent-" ++ event_type]
    ([Node.title event_type ["title-" ++ event_type],
      Node.paragraph [Node.text ("Description: " ++ event_description)],
      Node.paragraph [Node.text "Signal name: ", Node.literal event_name]]
     ++ (if event_key_field ≠ "" then
          [Node.paragraph [Node.text "Event key field: ",
                           Node.literal event_key_field]]
        else [])
     ++ [Node.paragraph [Node.text "Event data: ", Node.literal event_data],
         Node.paragraph
           [Node.text ("Defined at: " ++ filename ++ " (line " ++
                       line_number ++ ")")]])

/-- Lines 95-121 of the loop body: look the descriptive fields up in the
record (required fields by subscript, `.. event_key_field:` by `.get` with
default `""`) and build the leaf event section. -/
def mkEventSection (event_type : String) (event : Record) :
    Except PyErr Node := do
  let event_name ← getField event ".. event_name:"
  let event_data ← getField event ".. event_data:"
  let event_key_field := getFieldD event ".. event_key_field:" ""
  let event_description ← getField event ".. event_description:"
  let filename ← getField event "filename"
  let line_number ← getField event "line_number"
  Except.ok (mkEventSectionCore event_type event_name event_data
    event_key_field event_description filename line_number)

/-- The leaf section `mkEventSection` produces when every lookup succeeds,
written with total `.get(k, "")` lookups. -/
def leafSection (event_type : String) (event : Record) : Node :=
  mkEventSectionCore event_type
    (getFieldD event ".. event_name:" "")
    (getFieldD event ".. event_data:" "")
    (getFieldD event ".. event_key_field:" "")
    (getFieldD event ".. event_description:" "")
    (getFieldD event "filename" "")
    (getFieldD event "line_number" "")

/-- A subject section in the arena: its `<subject>` name and the event leaf
sections appended to it so far, in order. -/
structure SubjectAcc : Type where
  name : String
  events : List Node

/-- A domain section in the arena: its `<domain>` name and the indices (into
the subject arena) of the subject sections attached to it, in order. -/
structure DomainAcc : Type where
  name : String
  subjects : List Nat
deriving DecidableEq, Repr

/-- The loop state of `iter_nodes`: the two `current_*` trackers and the two
arenas.  `domain_header` (resp. `subject_header`) is `None` iff `domains`
(resp. `subjects`) is empty, and otherwise is the last element. -/
structure IterState : Type where
  current_domain : String
  current_subject : String
  domains : List DomainAcc
  subjects : List SubjectAcc

/-- The state before the loop: `current_domain = ""`, `current_subject = ""`,
`domain_header = None`, `subject_header = None`. -/
def initState : IterState := ⟨"", "", [], []⟩

/-- Mutation `domain_header += subject_header`: attach subject-arena index `i`
to the most recently created domain section. -/
def addSubjToLast : List DomainAcc → Nat → List DomainAcc
  | [], _ => []
  | [d], i => [⟨d.name, d.subjects ++ [i]⟩]
  | d :: d2 :: ds, i => d :: addSubjToLast (d2 :: ds) i

/-- Mutation `subject_header += event_section`: append an event leaf to the
most recently created subject section. -/
def addEventToLast : List SubjectAcc → Node → List SubjectAcc
  | [], _ => []
  | [s], e => [⟨s.name, s.events ++ [e]⟩]
  | s :: s2 :: ss, e => s :: addEventToLast (s2 :: ss) e

/-- Split a character list at every occurrence of the separator, keeping empty
pieces, exactly like Python `str.split` with an explicit separator. -/
def splitCharList (sep : Char) : List Char → List (List Char)
  | [] => [[]]
  | c :: cs =>
    if c = sep then [] :: splitCharList sep cs
    else
      match splitCharList sep cs with
      | [] => [[c]]
      | w :: ws => (c :: w) :: ws

/-- Python `event_type.split(".")`: the dot-separated segments, empty pieces
kept (`""` splits to `[""]`).  This agrees with `String.splitOn "."` but is
implemented by structural recursion on the character list, so that it reduces
on concrete inputs. -/
def splitOnDot (s : String) : List String :=
  (splitCharList (Char.ofNat 46) s.data).map fun cs => String.mk cs

/-- One iteration of the `for event_type in sorted(events)` loop, lines
73-121.  `split(".")[2]`/`[3]` raise `IndexError` on short identifiers;
`domain_header += subject_header` and `subject_header += event_section` raise
`TypeError` while the respective header is still `None`. -/
def processEvent (st : IterState) (event_type : String) (event : Record) :
    Except PyErr IterState := do
  let parts := splitOnDot event_type
  let domain ← match parts[2]? with
    | some d => Except.ok d
    | none => Except.error PyErr.indexError
  let subject ← match parts[3]? with
    | some s => Except.ok s
    | none => Except.error PyErr.indexError
  let st : IterState :=
    if domain ≠ st.current_domain then
      { st with current_domain := domain,
                domains := st.domains ++ [⟨domain, []⟩] }
    else st
  let afterSubject : IterState :=
    { st with current_subject := subject,
              domains := addSubjToLast st.domains st.subjects.length,
              subjects := st.subjects ++ [⟨subject, []⟩] }
  let st : IterState ←
    if subject ≠ st.current_subject then
      if st.domains.isEmpty then Except.error PyErr.typeError
      else Except.ok afterSubject
    else Except.ok st
  let event_section ← mkEventSection event_type event
  if st.subjects.isEmpty then Except.error PyErr.typeError
  else Except.ok { st with subjects := addEventToLast st.subjects event_section }

/-- Lexicographic code-point comparison of character lists: the order Python
uses to compare strings. -/
def leChars : List Char → List Char → Bool
  | [], _ => true
  | _ :: _, [] => false
  | a :: as, b :: bs =>
    if a < b then true
    else if b < a then false
    else leChars as bs

/-- Python string comparison `a <= b` (lexicographic by code point).  This
agrees with the library order on `String` (`pyLe_iff` below) and is
implemented by structural recursion so that comparisons of concrete strings
reduce. -/
def pyLe (a b : String) : Bool := leChars a.data b.data

/-- Python `sorted(events)`: the keys of the mapping in ascending
lexicographic order. -/
def sortedKeys (events : List (String × Record)) : List String :=
  List.insertionSort (fun a b => pyLe a b = true) (events.map Prod.fst)

/-- The loop body including the dict lookup `event = events[event_type]`
(folded into `processEvent`'s argument). -/
def stepEvent (events : List (String × Record)) (st : IterState)
    (event_type : String) : Except PyErr IterState := do
  let event ← match List.lookup event_type events with
    | some e => Except.ok e
    | none => Except.error PyErr.keyError
  processEvent st event_type event

/-- Materialise one subject section: its title followed by its appended event
sections. -/
def subjectNode (sa : SubjectAcc) : Node :=
  Node.sect ["openedxevent-subject-" ++ sa.name]
    (Node.title ("Subject: " ++ sa.name) [] :: sa.events)

/-- Materialise the yielded domain headers, in creation order: each domain
section holds its title followed by its attached subject sections.  The
subject indices stored by the loop are always in range, so the `getD`
default is never consulted. -/
def yieldedNodes (st : IterState) : List Node :=
  st.domains.map fun d =>
    Node.sect ["openedxevent-domain-" ++ d.name]
      (Node.title ("Architectural subdomain: " ++ d.name) [] ::
       d.subjects.map fun i => subjectNode (st.subjects.getD i ⟨"", []⟩))

/-- Method `run()` = `list(self.iter_nodes())`: fold the loop over the sorted keys
and collect the yielded domain headers (each created header is yielded exactly
once, in creation order). -/
def iterNodes (events : List (String × Record)) :
    Except PyErr (List Node) := do
  let st ← (sortedKeys events).foldlM (stepEvent events) initState
  Except.ok (yieldedNodes st)

/-! ### The `setup(app)` registration (lines 127-144) -/

/-- A registered configuration default: either `os.path.abspath(p)` (a value
depending on the build's working directory) or a literal string. -/
inductive ConfigDefault : Type where
  | abspath (p : String)
  | str (s : String)
deriving DecidableEq, Repr

/-- What `setup(app)` registers on the Sphinx application: config values
(name, default, rebuild condition), directive names, and the returned
extension metadata. -/
structure SphinxRegistration : Type where
  config_values : List (String × ConfigDefault × String)
  directives : List String
  version : String
  parallel_read_safe : Bool
  parallel_write_safe : Bool
deriving DecidableEq, Repr

/-- The registrations performed by `setup(app)`, in call order. -/
def setup : SphinxRegistration :=
  { config_values :=
      [("openedxevents_source_path", ConfigDefault.abspath "..", "env"),
       ("openedxevents_repo_url", ConfigDefault.str "", "env"),
       ("openedxevents_repo_version", ConfigDefault.str "main", "env")],
    directives := ["openedxevents"],
    version := "0.1",
    parallel_read_safe := true,
    parallel_write_safe := true }

/-! ### Observations on identifiers and on the output tree -/

/-- The 3rd dot-separated segment of an identifier (the architectural
subdomain), `""` when absent. -/
def domainOf (event_type : String) : String :=
  (splitOnDot event_type).getD 2 ""

/-- The 4th dot-separated segment of an identifier (the subject), `""` when
absent. -/
def subjectOf (event_type : String) : String :=
  (splitOnDot event_type).getD 3 ""

/-- The required record fields: subscripted without a default by the loop
body. -/
def requiredFields : List String :=
  [".. event_name:", ".. event_data:", ".. event_description:",
   "filename", "line_number"]

/-- Whether a docutils node is a section. -/
def isSect : Node → Bool
  | .sect _ _ => true
  | _ => false

/-- The children of a node that are themselves sections. -/
def childSections : Node → List Node
  | .sect _ cs => cs.filter isSect
  | _ => []

/-- The grandchild sections of the returned node list: with the tree shape
produced by `iter_nodes` these are exactly the leaf event sections, in
document order. -/
def docLeaves (out : List Node) : List Node :=
  (out.flatMap childSections).flatMap childSections

/-- The text of a section's title (its first child), `""` for any other
shape. -/
def sectionTitleText : Node → String
  | .sect _ (Node.title t _ :: _) => t
  | _ => ""

/-- The ids of each node of a list, in order. -/
def topIds (out : List Node) : List (List String) :=
  out.map fun n =>
    match n with
    | .sect ids _ => ids
    | _ => []

/-- The heads of the maximal runs of equal adjacent values in a list, given
the value `prev` held before the list starts (a run equal to the incoming
value is merged into it). -/
def runHeads (prev : String) : List String → List String
  | [] => []
  | d :: ds => if d = prev then runHeads prev ds else d :: runHeads d ds

/-- The raw child list of a node (sections and paragraphs have children;
titles and inline nodes do not). -/
def nodeChildren : Node → List Node
  | .sect _ cs => cs
  | .paragraph cs => cs
  | _ => []

/-- A key whose identifier has at least four dot-separated segments and whose
record is found in the mapping with every required field present. -/
def GoodKey (events : List (String × Record)) (k : String) : Prop :=
  4 ≤ (splitOnDot k).length ∧
  ∃ r, List.lookup k events = some r ∧
       ∀ f ∈ requiredFields, (List.lookup f r).isSome

/-- The loop invariant of `iter_nodes` after the keys `keys` (a prefix of the
sorted key list, in processing order) have been consumed:

* the `current_*` trackers hold the segments of the last processed key;
* the created domain headers are, in order, named after the heads of the
  maximal runs of equal adjacent domain segments (starting from the initial
  tracker value `""`);
* the subject indices attached to the domain headers are, reading the domains
  in order, exactly `0, 1, ..., subjects.length - 1`: every created subject is
  attached to exactly one domain, in creation order;
* reading all events of all subjects in order gives exactly one leaf section
  per processed key, in processing order. -/
structure LoopInv (events : List (String × Record)) (keys : List String)
    (st : IterState) : Prop where
  cur_dom : st.current_domain = ((keys.map domainOf).getLast?).getD ""
  cur_subj : st.current_subject = ((keys.map subjectOf).getLast?).getD ""
  dom_names : st.domains.map DomainAcc.name = runHeads "" (keys.map domainOf)
  idx : st.domains.flatMap DomainAcc.subjects = List.range st.subjects.length
  flat : st.subjects.flatMap SubjectAcc.events
       = keys.map fun k => leafSection k ((List.lookup k events).getD [])

/-! ### Concrete inputs used to exercise the theorems -/

/-- A record carrying every required field and no `.. event_key_field:`. -/
def sampleRecord : Record :=
  [(".. event_name:", "org.signal.NAME"), (".. event_data:", "SomeData"),
   (".. event_description:", "a sample event"), ("filename", "events.py"),
   ("line_number", "12")]

/-- A record that also carries a non-empty `.. event_key_field:`. -/
def sampleRecordKf : Record :=
  sampleRecord ++ [(".. event_key_field:", "user.id")]

/-- A record missing the required `.. event_data:` field. -/
def recordMissingData : Record :=
  [(".. event_name:", "n"), (".. event_description:", "e"),
   ("filename", "f"), ("line_number", "3")]

/-- Two events whose 4th segment (subject) coincides while the 3rd segment
(domain) differs: the loop then fails to open a fresh subject section. -/
def c1events : List (String × Record) :=
  [("a.b.x.s.e1", sampleRecord), ("a.b.y.s.e2", sampleRecord)]

def w2events : List (String × Record) :=
  [("org.edu.domain.subject.v1", sampleRecord)]

def w3events : List (String × Record) :=
  [("m.n.d1.s1.beta", sampleRecord), ("m.n.d1.s1.alpha", sampleRecord)]

/-- The node list returned by `run()` on `w3events`. -/
def w3out : List Node :=
  match iterNodes w3events with
  | Except.ok l => l
  | Except.error _ => []

def w5events : List (String × Record) :=
  [("q.r.dom5.subj5.ev", sampleRecordKf)]

/-- The node list returned by `run()` on `w5events`. -/
def w5out : List Node :=
  match iterNodes w5events with
  | Except.ok l => l
  | Except.error _ => []

def w7events : List (String × Record) :=
  [("u.v.dom7.subj7.ev", sampleRecord)]

/-- The node list returned by `run()` on `w7events`. -/
def w7out : List Node :=
  match iterNodes w7events with
  | Except.ok l => l
  | Except.error _ => []

/-- The leaf section built for a record with a non-empty key field. -/
def w9node : Node :=
  match mkEventSection "w.x.dom9.subj9" sampleRecordKf with
  | Except.ok n => n
  | Except.error _ => Node.text ""

/-- Three events whose domains alternate `x`, `y`, `x` in sorted order. -/
def w10events : List (String × Record) :=
  [("a.a.x.s.e1", sampleRecord), ("a.b.y.s.e2", sampleRecord),
   ("a.c.x.s.e3", sampleRecord)]

/-- The node list returned by `run()` on `w10events`. -/
def w10out : List Node :=
  match iterNodes w10events with
  | Except.ok l => l
  | Except.error _ => []

/-! ### Helper lemmas -/

theorem leChars_iff : ∀ as bs : List Char,
    (leChars as bs = true) ↔ ¬ List.Lex (· < ·) bs as := by
  intro as
  induction as with
  | nil =>
    intro bs
    simp only [leChars]
    constructor
    · intro _ h
      cases h
    · intro _
      trivial
  | cons a as ih =>
    intro bs
    cases bs with
    | nil =>
      simp only [leChars]
      constructor
      · intro h
        cases h
      · intro h
        exact absurd List.Lex.nil h
    | cons b bs =>
      simp only [leChars]
      rcases lt_trichotomy a b with hab | hab | hab
      · rw [if_pos hab]
        constructor
        · intro _ h
          cases h with
          | cons h2 => exact absurd hab (lt_irrefl a)
          | rel h2 => exact absurd hab (lt_asymm h2)
        · intro _
          rfl
      · subst hab
        rw [if_neg (lt_irrefl a), if_neg (lt_irrefl a), ih bs]
        constructor
        · intro h hlex
          cases hlex with
          | cons h2 => exact h h2
          | rel h2 => exact absurd h2 (lt_irrefl a)
        · intro h h2
          exact h (List.Lex.cons h2)
      · rw [if_neg (lt_asymm hab), if_pos hab]
        constructor
        · intro h
          cases h
        · intro h
          exact absurd (List.Lex.rel hab) h

theorem pyLe_iff (a b : String) : (pyLe a b = true) ↔ a ≤ b := by
  have h1 : (a ≤ b) ↔ ¬ b < a := Iff.rfl
  rw [h1, String.lt_iff_toList_lt]
  exact leChars_iff a.data b.data

instance : IsTotal String (fun a b => pyLe a b = true) :=
  ⟨fun a b => by
    rcases le_total a b with h | h
    · exact Or.inl ((pyLe_iff a b).mpr h)
    · exact Or.inr ((pyLe_iff b a).mpr h)⟩

instance : IsTrans String (fun a b => pyLe a b = true) :=
  ⟨fun a b c hab hbc => (pyLe_iff a c).mpr
    (le_trans ((pyLe_iff a b).mp hab) ((pyLe_iff b c).mp hbc))⟩

@[simp]
theorem exceptBind_ok {ε α β : Type} (a : α) (f : α → Except ε β) :
    (Except.ok a : Except ε α) >>= f = f a := rfl

@[simp]
theorem exceptBind_error {ε α β : Type} (e : ε) (f : α → Except ε β) :
    (Except.error e : Except ε α) >>= f = Except.error e := rfl

theorem getLastD_cons (x prev : String) (xs : List String) :
    ((x :: xs).getLast?).getD prev = (xs.getLast?).getD x := by
  cases xs with
  | nil => rfl
  | cons y ys =>
    rw [List.getLast?_cons_cons]
    cases h : (y :: ys).getLast? with
    | none => exact absurd (List.getLast?_eq_none_iff.mp h) (by simp)
    | some a => rfl

theorem runHeads_cons (prev d : String) (ds : List String) :
    runHeads prev (d :: ds) =
      if d = prev then runHeads prev ds else d :: runHeads d ds := rfl

theorem runHeads_concat (prev d : String) (l : List String) :
    runHeads prev (l ++ [d]) =
      runHeads prev l ++ if d = (l.getLast?).getD prev then [] else [d] := by
  induction l generalizing prev with
  | nil => simp [runHeads]
  | cons x xs ih =>
    rw [List.cons_append, runHeads_cons, runHeads_cons, getLastD_cons]
    by_cases hx : x = prev
    · subst hx
      rw [if_pos rfl, if_pos rfl, ih]
    · rw [if_neg hx, if_neg hx, ih, List.cons_append]

theorem addSubjToLast_map_name (l : List DomainAcc) (i : Nat) :
    (addSubjToLast l i).map DomainAcc.name = l.map DomainAcc.name := by
  induction l with
  | nil => rfl
  | cons x xs ih =>
    cases xs with
    | nil => rfl
    | cons y ys => simpa [addSubjToLast] using ih

theorem addSubjToLast_flatMap (l : List DomainAcc) (i : Nat) (h : l ≠ []) :
    (addSubjToLast l i).flatMap DomainAcc.subjects
      = l.flatMap DomainAcc.subjects ++ [i] := by
  induction l with
  | nil => exact absurd rfl h
  | cons x xs ih =>
    cases xs with
    | nil => simp [addSubjToLast]
    | cons y ys =>
      have := ih (by simp)
      simp only [addSubjToLast, List.flatMap_cons] at this ⊢
      rw [this]
      simp [List.append_assoc]

theorem addEventToLast_flatMap (l : List SubjectAcc) (e : Node) (h : l ≠ []) :
    (addEventToLast l e).flatMap SubjectAcc.events
      = l.flatMap SubjectAcc.events ++ [e] := by
  induction l with
  | nil => exact absurd rfl h
  | cons x xs ih =>
    cases xs with
    | nil => simp [addEventToLast]
    | cons y ys =>
      have := ih (by simp)
      simp only [addEventToLast, List.flatMap_cons] at this ⊢
      rw [this]
      simp [List.append_assoc]

theorem addEventToLast_length (l : List SubjectAcc) (e : Node) :
    (addEventToLast l e).length = l.length := by
  induction l with
  | nil => rfl
  | cons x xs ih =>
    cases xs with
    | nil => rfl
    | cons y ys => simpa [addEventToLast] using ih

theorem range_getD_flatMap {α β : Type} (l : List α) (dflt : α)
    (f : α → List β) :
    (List.range l.length).flatMap (fun i => f (l.getD i dflt)) = l.flatMap f := by
  induction l with
  | nil => rfl
  | cons x xs ih =>
    rw [List.length_cons, List.range_succ_eq_map, List.flatMap_cons,
        List.flatMap_map]
    simp only [List.getD_cons_zero, List.getD_cons_succ, Function.comp]
    rw [List.flatMap_cons, ih]

theorem lookup_cons_eq (k : String) (p : String × Record)
    (ps : List (String × Record)) :
    List.lookup k (p :: ps) =
      if k = p.1 then some p.2 else List.lookup k ps := by
  rcases p with ⟨a, b⟩
  by_cases hk : k = a
  · subst hk
    simp [List.lookup]
  · rw [List.lookup_cons, if_neg hk]
    simp [beq_eq_false_iff_ne.mpr hk]

theorem lookup_isSome_of_mem_keys {l : List (String × Record)} {k : String}
    (h : k ∈ l.map Prod.fst) : ∃ r, List.lookup k l = some r := by
  induction l with
  | nil => simp at h
  | cons p ps ih =>
    rw [lookup_cons_eq]
    by_cases hk : k = p.1
    · exact ⟨p.2, by rw [if_pos hk]⟩
    · have : k ∈ ps.map Prod.fst := by
        simpa [hk] using h
      obtain ⟨r, hr⟩ := ih this
      exact ⟨r, by rw [if_neg hk, hr]⟩

theorem mem_of_lookup_eq_some {l : List (String × Record)} {k : String}
    {r : Record} (h : List.lookup k l = some r) : (k, r) ∈ l := by
  induction l with
  | nil => simp [List.lookup] at h
  | cons p ps ih =>
    rw [lookup_cons_eq] at h
    by_cases hk : k = p.1
    · rw [if_pos hk] at h
      rcases p with ⟨a, b⟩
      obtain rfl : b = r := by
        simpa using h
      exact hk ▸ List.mem_cons_self _ _
    · rw [if_neg hk] at h
      exact List.mem_cons_of_mem _ (ih h)

theorem lookup_eq_some_of_mem {l : List (String × Record)} {k : String}
    {r : Record} (hnd : (l.map Prod.fst).Nodup) (h : (k, r) ∈ l) :
    List.lookup k l = some r := by
  induction l with
  | nil => simp at h
  | cons p ps ih =>
    rw [List.map_cons, List.nodup_cons] at hnd
    rw [lookup_cons_eq]
    rcases List.mem_cons.mp h with h1 | h1
    · rw [← h1]
      simp
    · have hk : k ≠ p.1 := by
        intro hk
        exact hnd.1 (hk ▸ List.mem_map.mpr ⟨(k, r), h1, rfl⟩)
      rw [if_neg hk]
      exact ih hnd.2 h1

theorem mkEventSection_ok {event_type : String} {event : Record} {n : Node}
    (h : mkEventSection event_type event = Except.ok n) :
    n = leafSection event_type event := by
  cases h1 : List.lookup ".. event_name:" event with
  | none => simp [mkEventSection, getField, bind, Except.bind, h1] at h
  | some v1 =>
  cases h2 : List.lookup ".. event_data:" event with
  | none => simp [mkEventSection, getField, bind, Except.bind, h1, h2] at h
  | some v2 =>
  cases h3 : List.lookup ".. event_description:" event with
  | none => simp [mkEventSection, getField, bind, Except.bind, h1, h2, h3] at h
  | some v3 =>
  cases h4 : List.lookup "filename" event with
  | none =>
    simp [mkEventSection, getField, bind, Except.bind, h1, h2, h3, h4] at h
  | some v4 =>
  cases h5 : List.lookup "line_number" event with
  | none =>
    simp [mkEventSection, getField, bind, Except.bind, h1, h2, h3, h4, h5] at h
  | some v5 =>
    simp [mkEventSection, getField, bind, Except.bind, h1, h2, h3, h4, h5] at h
    simp [leafSection, getFieldD, h1, h2, h3, h4, h5, ← h]

theorem mkEventSection_ok_of {event_type : String} {event : Record}
    (h : ∀ f ∈ requiredFields, (List.lookup f event).isSome) :
    mkEventSection event_type event
      = Except.ok (leafSection event_type event) := by
  obtain ⟨v1, h1⟩ := Option.isSome_iff_exists.mp
    (h ".. event_name:" (by simp [requiredFields]))
  obtain ⟨v2, h2⟩ := Option.isSome_iff_exists.mp
    (h ".. event_data:" (by simp [requiredFields]))
  obtain ⟨v3, h3⟩ := Option.isSome_iff_exists.mp
    (h ".. event_description:" (by simp [requiredFields]))
  obtain ⟨v4, h4⟩ := Option.isSome_iff_exists.mp
    (h "filename" (by simp [requiredFields]))
  obtain ⟨v5, h5⟩ := Option.isSome_iff_exists.mp
    (h "line_number" (by simp [requiredFields]))
  simp [mkEventSection, getField, bind, Except.bind, leafSection, getFieldD,
        h1, h2, h3, h4, h5]

theorem mkEventSection_err_of {event_type : String} {event : Record}
    (h : ∃ f ∈ requiredFields, List.lookup f event = none) :
    mkEventSection event_type event = Except.error PyErr.keyError := by
  cases h1 : List.lookup ".. event_name:" event with
  | none => simp [mkEventSection, getField, bind, Except.bind, h1]
  | some v1 =>
  cases h2 : List.lookup ".. event_data:" event with
  | none => simp [mkEventSection, getField, bind, Except.bind, h1, h2]
  | some v2 =>
  cases h3 : List.lookup ".. event_description:" event with
  | none => simp [mkEventSection, getField, bind, Except.bind, h1, h2, h3]
  | some v3 =>
  cases h4 : List.lookup "filename" event with
  | none => simp [mkEventSection, getField, bind, Except.bind, h1, h2, h3, h4]
  | some v4 =>
  cases h5 : List.lookup "line_number" event with
  | none =>
    simp [mkEventSection, getField, bind, Except.bind, h1, h2, h3, h4, h5]
  | some v5 =>
    exfalso
    obtain ⟨f, hf, hnone⟩ := h
    simp [requiredFields] at hf
    rcases hf with rfl | rfl | rfl | rfl | rfl <;>
      simp [h1, h2, h3, h4, h5] at hnone

theorem loopInv_init (events : List (String × Record)) :
    LoopInv events [] initState :=
  ⟨rfl, rfl, rfl, rfl, rfl⟩

theorem ne_nil_of_isEmpty_false {α : Type} {l : List α}
    (h : l.isEmpty = false) : l ≠ [] := by
  intro hn
  rw [hn] at h
  simp at h

theorem stepEvent_inv {events : List (String × Record)} {keys : List String}
    {st st' : IterState} {k : String}
    (hinv : LoopInv events keys st)
    (hstep : stepEvent events st k = Except.ok st') :
    LoopInv events (keys ++ [k]) st' := by
  cases hlook : List.lookup k events with
  | none => simp [stepEvent, hlook, bind, Except.bind] at hstep
  | some ev =>
  simp only [stepEvent, hlook, bind, Except.bind] at hstep
  cases hd : (splitOnDot k)[2]? with
  | none => simp [processEvent, hd, bind, Except.bind] at hstep
  | some d =>
  cases hs : (splitOnDot k)[3]? with
  | none => simp [processEvent, hd, hs, bind, Except.bind] at hstep
  | some s =>
  simp only [processEvent, hd, hs, bind, Except.bind] at hstep
  have hdom : domainOf k = d := by
    simp [domainOf, List.getD_eq_getElem?_getD, hd]
  have hsub : subjectOf k = s := by
    simp [subjectOf, List.getD_eq_getElem?_getD, hs]
  have hmapd : (keys ++ [k]).map domainOf = keys.map domainOf ++ [d] := by
    simp [hdom]
  have hmaps : (keys ++ [k]).map subjectOf = keys.map subjectOf ++ [s] := by
    simp [hsub]
  have hlastd : (((keys ++ [k]).map domainOf).getLast?).getD "" = d := by
    rw [hmapd, List.getLast?_concat]
    rfl
  have hlasts : (((keys ++ [k]).map subjectOf).getLast?).getD "" = s := by
    rw [hmaps, List.getLast?_concat]
    rfl
  have hrh : runHeads "" ((keys ++ [k]).map domainOf)
      = runHeads "" (keys.map domainOf)
        ++ if d = st.current_domain then [] else [d] := by
    rw [hmapd, runHeads_concat, ← hinv.cur_dom]
  have hflatR : ((keys ++ [k]).map fun k2 =>
        leafSection k2 ((List.lookup k2 events).getD []))
      = (keys.map fun k2 => leafSection k2 ((List.lookup k2 events).getD []))
        ++ [leafSection k ev] := by
    simp [hlook]
  by_cases hdc : d = st.current_domain
  · rw [if_neg (show ¬(d ≠ st.current_domain) by simp [hdc])] at hstep
    by_cases hsc : s = st.current_subject
    · -- no domain change, no subject change
      rw [if_neg (show ¬(s ≠ st.current_subject) by simp [hsc])] at hstep
      cases hmk : mkEventSection k ev with
      | error e => simp [hmk] at hstep
      | ok sec =>
      simp only [hmk] at hstep
      cases hie : st.subjects.isEmpty with
      | true => rw [hie, if_pos rfl] at hstep; exact absurd hstep (by simp)
      | false =>
      rw [hie] at hstep
      rw [if_neg (show ¬(false = true) by simp)] at hstep
      simp only [Except.ok.injEq] at hstep
      subst hstep
      refine ⟨?_, ?_, ?_, ?_, ?_⟩
      · rw [hlastd, ← hdc]
      · rw [hlasts, ← hsc]
      · rw [hrh, if_pos hdc, List.append_nil]
        exact hinv.dom_names
      · rw [addEventToLast_length]
        exact hinv.idx
      · rw [addEventToLast_flatMap _ _ (ne_nil_of_isEmpty_false hie),
            hinv.flat, hflatR, mkEventSection_ok hmk]
    · -- no domain change, new subject
      rw [if_pos (show s ≠ st.current_subject from hsc)] at hstep
      cases hie : st.domains.isEmpty with
      | true => rw [hie, if_pos rfl] at hstep; exact absurd hstep (by simp)
      | false =>
      rw [hie] at hstep
      rw [if_neg (show ¬(false = true) by simp)] at hstep
      cases hmk : mkEventSection k ev with
      | error e => simp [hmk] at hstep
      | ok sec =>
      simp only [hmk] at hstep
      rw [if_neg (show ¬((st.subjects ++
            [({ name := s, events := [] } : SubjectAcc)]).isEmpty = true)
          by simp)] at hstep
      simp only [Except.ok.injEq] at hstep
      subst hstep
      refine ⟨?_, ?_, ?_, ?_, ?_⟩
      · rw [hlastd, ← hdc]
      · rw [hlasts]
      · rw [hrh, if_pos hdc, List.append_nil, addSubjToLast_map_name]
        exact hinv.dom_names
      · rw [addEventToLast_length,
            addSubjToLast_flatMap _ _ (ne_nil_of_isEmpty_false hie),
            hinv.idx]
        simp [List.range_succ]
      · rw [addEventToLast_flatMap _ _ (by simp),
            List.flatMap_append, hinv.flat, hflatR, mkEventSection_ok hmk]
        simp
  · rw [if_pos (show d ≠ st.current_domain from hdc)] at hstep
    dsimp only at hstep
    by_cases hsc : s = st.current_subject
    · -- domain change, no subject change
      rw [if_neg (show ¬(s ≠ st.current_subject) by simp [hsc])] at hstep
      cases hmk : mkEventSection k ev with
      | error e => simp [hmk] at hstep
      | ok sec =>
      simp only [hmk] at hstep
      cases hie : st.subjects.isEmpty with
      | true => rw [hie, if_pos rfl] at hstep; exact absurd hstep (by simp)
      | false =>
      rw [hie] at hstep
      rw [if_neg (show ¬(false = true) by simp)] at hstep
      simp only [Except.ok.injEq] at hstep
      subst hstep
      refine ⟨?_, ?_, ?_, ?_, ?_⟩
      · rw [hlastd]
      · rw [hlasts, ← hsc]
      · rw [hrh, if_neg hdc, List.map_append, hinv.dom_names]
        rfl
      · rw [addEventToLast_length, List.flatMap_append, hinv.idx]
        simp
      · rw [addEventToLast_flatMap _ _ (ne_nil_of_isEmpty_false hie),
            hinv.flat, hflatR, mkEventSection_ok hmk]
    · -- domain change, new subject
      rw [if_pos (show s ≠ st.current_subject from hsc)] at hstep
      rw [if_neg (show ¬((st.domains ++
            [({ name := d, subjects := [] } : DomainAcc)]).isEmpty = true)
          by simp)] at hstep
      cases hmk : mkEventSection k ev with
      | error e => simp [hmk] at hstep
      | ok sec =>
      simp only [hmk] at hstep
      rw [if_neg (show ¬((st.subjects ++
            [({ name := s, events := [] } : SubjectAcc)]).isEmpty = true)
          by simp)] at hstep
      simp only [Except.ok.injEq] at hstep
      subst hstep
      refine ⟨?_, ?_, ?_, ?_, ?_⟩
      · rw [hlastd]
      · rw [hlasts]
      · rw [hrh, if_neg hdc, addSubjToLast_map_name, List.map_append,
            hinv.dom_names]
        rfl
      · rw [addEventToLast_length,
            addSubjToLast_flatMap _ _ (by simp),
            List.flatMap_append, hinv.idx]
        simp [List.range_succ]
      · rw [addEventToLast_flatMap _ _ (by simp),
            List.flatMap_append, hinv.flat, hflatR, mkEventSection_ok hmk]
        simp

theorem foldlM_inv {events : List (String × Record)} :
    ∀ (ks keys : List String) (st st' : IterState),
      LoopInv events keys st →
      List.foldlM (stepEvent events) st ks = Except.ok st' →
      LoopInv events (keys ++ ks) st' := by
  intro ks
  induction ks with
  | nil =>
    intro keys st st' h hf
    simp only [List.foldlM_nil] at hf
    rw [List.append_nil]
    cases hf
    exact h
  | cons k ks ih =>
    intro keys st st' h hf
    rw [List.foldlM_cons] at hf
    cases h1 : stepEvent events st k with
    | error e => rw [h1] at hf; simp at hf
    | ok st1 =>
      rw [h1] at hf
      simp only [exceptBind_ok] at hf
      have h3 := ih (keys ++ [k]) st1 st' (stepEvent_inv h h1) hf
      rwa [List.append_assoc] at h3

theorem iterNodes_ok_elim {events : List (String × Record)} {out : List Node}
    (h : iterNodes events = Except.ok out) :
    ∃ st, LoopInv events (sortedKeys events) st ∧ out = yieldedNodes st := by
  simp only [iterNodes, bind, Except.bind] at h
  cases hf : List.foldlM (stepEvent events) initState (sortedKeys events) with
  | error e => rw [hf] at h; cases h
  | ok st =>
    rw [hf] at h
    refine ⟨st, ?_, ?_⟩
    · have := foldlM_inv (sortedKeys events) [] initState st
        (loopInv_init events) hf
      simpa using this
    · cases h
      rfl

theorem flatMap_filter_sect (l : List SubjectAcc)
    (h : ∀ n ∈ l.flatMap SubjectAcc.events, isSect n = true) :
    l.flatMap (fun sa => sa.events.filter isSect)
      = l.flatMap SubjectAcc.events := by
  induction l with
  | nil => rfl
  | cons sa rest ih =>
    rw [List.flatMap_cons, List.flatMap_cons]
    rw [List.filter_eq_self.mpr fun n hn =>
      h n (by rw [List.flatMap_cons]; exact List.mem_append_left _ hn)]
    rw [ih fun n hn =>
      h n (by rw [List.flatMap_cons]; exact List.mem_append_right _ hn)]

theorem docLeaves_yielded {st : IterState}
    (hidx : st.domains.flatMap DomainAcc.subjects
      = List.range st.subjects.length)
    (hsect : ∀ n ∈ st.subjects.flatMap SubjectAcc.events, isSect n = true) :
    docLeaves (yieldedNodes st) = st.subjects.flatMap SubjectAcc.events := by
  have hCSsubj : ∀ sa : SubjectAcc,
      childSections (subjectNode sa) = sa.events.filter isSect := by
    intro sa
    simp [childSections, subjectNode, List.filter, isSect]
  have h1 : (yieldedNodes st).flatMap childSections
      = (List.range st.subjects.length).map
          (fun i => subjectNode (st.subjects.getD i ⟨"", []⟩)) := by
    unfold yieldedNodes
    rw [List.flatMap_map]
    have hfun : (fun d : DomainAcc =>
        childSections
          (Node.sect ["openedxevent-domain-" ++ d.name]
            (Node.title ("Architectural subdomain: " ++ d.name) [] ::
             d.subjects.map fun i =>
               subjectNode (st.subjects.getD i ⟨"", []⟩))))
        = fun d : DomainAcc => d.subjects.map
            (fun i => subjectNode (st.subjects.getD i ⟨"", []⟩)) := by
      funext d
      simp only [childSections, List.filter]
      rw [show isSect (Node.title ("Architectural subdomain: " ++ d.name) [])
            = false from rfl]
      exact List.filter_eq_self.mpr fun x hx => by
        obtain ⟨i, _, rfl⟩ := List.mem_map.mp hx
        rfl
    rw [hfun, ← List.map_flatMap, hidx]
  rw [docLeaves, h1, List.flatMap_map]
  rw [show (fun i : Nat =>
        childSections (subjectNode (st.subjects.getD i ⟨"", []⟩)))
      = fun i : Nat => (st.subjects.getD i ⟨"", []⟩).events.filter isSect
      from funext fun i => hCSsubj _]
  rw [range_getD_flatMap st.subjects ⟨"", []⟩
      (fun sa => sa.events.filter isSect)]
  exact flatMap_filter_sect _ hsect

theorem docLeaves_ok {events : List (String × Record)} {out : List Node}
    (hok : iterNodes events = Except.ok out) :
    docLeaves out = (sortedKeys events).map
      (fun k => leafSection k ((List.lookup k events).getD [])) := by
  obtain ⟨st, hinv, rfl⟩ := iterNodes_ok_elim hok
  rw [docLeaves_yielded hinv.idx ?_, hinv.flat]
  intro n hn
  rw [hinv.flat] at hn
  obtain ⟨k, _, rfl⟩ := List.mem_map.mp hn
  rfl

theorem childSections_leafSection (et : String) (ev : Record) :
    childSections (leafSection et ev) = [] := by
  unfold leafSection mkEventSectionCore childSections
  by_cases h : getFieldD ev ".. event_key_field:" "" ≠ ""
  · rw [if_pos h]
    rfl
  · rw [if_neg h]
    rfl

theorem string_append_cancel {p a b : String} (h : p ++ a = p ++ b) :
    a = b := by
  have hd := congrArg String.data h
  simp [String.data_append] at hd
  exact String.ext hd

theorem isEmpty_false_of_ne_nil {α : Type} {l : List α} (h : l ≠ []) :
    l.isEmpty = false := by
  cases l with
  | nil => exact absurd rfl h
  | cons x xs => rfl

theorem addSubjToLast_ne_nil {l : List DomainAcc} {i : Nat} (h : l ≠ []) :
    addSubjToLast l i ≠ [] := by
  intro h0
  have hm := addSubjToLast_map_name l i
  rw [h0] at hm
  cases l with
  | nil => exact h rfl
  | cons x xs => simp at hm

theorem addEventToLast_ne_nil {l : List SubjectAcc} {e : Node} (h : l ≠ []) :
    addEventToLast l e ≠ [] := by
  intro h0
  have hm := addEventToLast_length l e
  rw [h0] at hm
  cases l with
  | nil => exact h rfl
  | cons x xs => simp at hm

theorem getElem2_of_good {k : String} (h : 4 ≤ (splitOnDot k).length) :
    ∃ d, (splitOnDot k)[2]? = some d := by
  have h2 : 2 < (splitOnDot k).length := by omega
  exact ⟨_, List.getElem?_eq_getElem h2⟩

theorem getElem3_of_good {k : String} (h : 4 ≤ (splitOnDot k).length) :
    ∃ s, (splitOnDot k)[3]? = some s := by
  have h3 : 3 < (splitOnDot k).length := by omega
  exact ⟨_, List.getElem?_eq_getElem h3⟩

theorem stepEvent_ok_of_good {events : List (String × Record)}
    {st : IterState} {k : String} (hk : GoodKey events k)
    (hd : st.domains ≠ []) (hs : st.subjects ≠ []) :
    ∃ st2, stepEvent events st k = Except.ok st2
      ∧ st2.domains ≠ [] ∧ st2.subjects ≠ [] := by
  obtain ⟨hlen, r, hlook, hflds⟩ := hk
  obtain ⟨d, hd2⟩ := getElem2_of_good hlen
  obtain ⟨s, hs3⟩ := getElem3_of_good hlen
  have hmk := @mkEventSection_ok_of k r hflds
  by_cases hdc : d = st.current_domain
  · by_cases hsc : s = st.current_subject
    · refine ⟨⟨st.current_domain, st.current_subject, st.domains,
          addEventToLast st.subjects (leafSection k r)⟩,
        ?_, hd, addEventToLast_ne_nil hs⟩
      simp only [stepEvent, hlook, bind, Except.bind, processEvent, hd2,
                 hs3, hmk]
      rw [if_neg (show ¬(d ≠ st.current_domain) by simp [hdc])]
      rw [if_neg (show ¬(s ≠ st.current_subject) by simp [hsc])]
      rw [isEmpty_false_of_ne_nil hs]
      rw [if_neg (show ¬(false = true) by simp)]
    · refine ⟨⟨st.current_domain, s,
          addSubjToLast st.domains st.subjects.length,
          addEventToLast (st.subjects ++ [⟨s, []⟩]) (leafSection k r)⟩,
        ?_, addSubjToLast_ne_nil hd, addEventToLast_ne_nil (by simp)⟩
      simp only [stepEvent, hlook, bind, Except.bind, processEvent, hd2,
                 hs3, hmk]
      rw [if_neg (show ¬(d ≠ st.current_domain) by simp [hdc])]
      rw [if_pos (show s ≠ st.current_subject from hsc)]
      rw [isEmpty_false_of_ne_nil hd]
      rw [if_neg (show ¬(false = true) by simp)]
      rw [isEmpty_false_of_ne_nil
        (show st.subjects ++ [({ name := s, events := [] } : SubjectAcc)]
          ≠ [] by simp)]
      rw [if_neg (show ¬(false = true) by simp)]
  · by_cases hsc : s = st.current_subject
    · refine ⟨⟨d, st.current_subject, st.domains ++ [⟨d, []⟩],
          addEventToLast st.subjects (leafSection k r)⟩,
        ?_, by simp, addEventToLast_ne_nil hs⟩
      simp only [stepEvent, hlook, bind, Except.bind, processEvent, hd2,
                 hs3, hmk]
      rw [if_pos (show d ≠ st.current_domain from hdc)]
      dsimp only
      rw [if_neg (show ¬(s ≠ st.current_subject) by simp [hsc])]
      rw [isEmpty_false_of_ne_nil hs]
      rw [if_neg (show ¬(false = true) by simp)]
    · refine ⟨⟨d, s,
          addSubjToLast (st.domains ++ [⟨d, []⟩]) st.subjects.length,
          addEventToLast (st.subjects ++ [⟨s, []⟩]) (leafSection k r)⟩,
        ?_, addSubjToLast_ne_nil (by simp), addEventToLast_ne_nil (by simp)⟩
      simp only [stepEvent, hlook, bind, Except.bind, processEvent, hd2,
                 hs3, hmk]
      rw [if_pos (show d ≠ st.current_domain from hdc)]
      dsimp only
      rw [if_pos (show s ≠ st.current_subject from hsc)]
      rw [isEmpty_false_of_ne_nil
        (show st.domains ++ [({ name := d, subjects := [] } : DomainAcc)]
          ≠ [] by simp)]
      rw [if_neg (show ¬(false = true) by simp)]
      rw [isEmpty_false_of_ne_nil
        (show st.subjects ++ [({ name := s, events := [] } : SubjectAcc)]
          ≠ [] by simp)]
      rw [if_neg (show ¬(false = true) by simp)]

theorem stepEvent_ok_first {events : List (String × Record)} {k : String}
    (hk : GoodKey events k) (hd3 : domainOf k ≠ "") (hs4 : subjectOf k ≠ "") :
    ∃ st2, stepEvent events initState k = Except.ok st2
      ∧ st2.domains ≠ [] ∧ st2.subjects ≠ [] := by
  obtain ⟨hlen, r, hlook, hflds⟩ := hk
  obtain ⟨d, hd2⟩ := getElem2_of_good hlen
  obtain ⟨s, hs3⟩ := getElem3_of_good hlen
  have hdv : d ≠ "" := by
    rw [domainOf, List.getD_eq_getElem?_getD, hd2] at hd3
    exact hd3
  have hsv : s ≠ "" := by
    rw [subjectOf, List.getD_eq_getElem?_getD, hs3] at hs4
    exact hs4
  have hmk := @mkEventSection_ok_of k r hflds
  refine ⟨⟨d, s, addSubjToLast [⟨d, []⟩] 0,
      addEventToLast [⟨s, []⟩] (leafSection k r)⟩,
    ?_, addSubjToLast_ne_nil (by simp), addEventToLast_ne_nil (by simp)⟩
  simp only [stepEvent, hlook, bind, Except.bind, processEvent, hd2, hs3, hmk]
  rw [if_pos (show d ≠ initState.current_domain from hdv)]
  dsimp only
  rw [if_pos (show s ≠ initState.current_subject from hsv)]
  rw [show (initState.domains ++
      [({ name := d, subjects := [] } : DomainAcc)]).isEmpty = false from rfl]
  rw [if_neg (show ¬(false = true) by simp)]
  rw [show (initState.subjects ++
      [({ name := s, events := [] } : SubjectAcc)]).isEmpty = false from rfl]
  rw [if_neg (show ¬(false = true) by simp)]
  rfl

theorem foldlM_ok_of_good {events : List (String × Record)} :
    ∀ (ks : List String) (st : IterState),
      (∀ k ∈ ks, GoodKey events k) →
      st.domains ≠ [] → st.subjects ≠ [] →
      ∃ st2, List.foldlM (stepEvent events) st ks = Except.ok st2 := by
  intro ks
  induction ks with
  | nil => exact fun st _ _ _ => ⟨st, rfl⟩
  | cons k ks ih =>
    intro st hgood hd hs
    obtain ⟨st1, h1, hd1, hs1⟩ :=
      stepEvent_ok_of_good (hgood k (List.mem_cons_self _ _)) hd hs
    obtain ⟨st2, h2⟩ :=
      ih st1 (fun k2 hk2 => hgood k2 (List.mem_cons_of_mem _ hk2)) hd1 hs1
    refine ⟨st2, ?_⟩
    rw [List.foldlM_cons, h1]
    simpa using h2

/-! ### The claims -/

/-- C1: the spec says a new subject section is opened, and attached to the
current domain section, whenever the (3rd, 4th)-segment pair changes.  The
code compares only the 4th segment and never resets `current_subject` when
the domain changes: on `c1events` the second event (domain `y`, subject `s`,
same subject as the first event) opens no subject section and is appended to
the subject section living under the first domain section `x`, while the `y`
domain section is emitted holding nothing but its title.  The theorem
evaluates the directive at this failing input and exhibits the misplaced
leaf. -/
theorem C1_subject_not_reset :
    iterNodes c1events = Except.ok
      [Node.sect ["openedxevent-domain-x"]
        [Node.title "Architectural subdomain: x" [],
         Node.sect ["openedxevent-subject-s"]
           [Node.title "Subject: s" [],
            leafSection "a.b.x.s.e1" sampleRecord,
            leafSection "a.b.y.s.e2" sampleRecord]],
       Node.sect ["openedxevent-domain-y"]
        [Node.title "Architectural subdomain: y" []]] := by rfl

/-- C2 counterexample: the claim says `run()` completes without raising for
every identifier, including identifiers with fewer than four dot-separated
segments.  On the mapping `{"a": sampleRecord}` — whose record carries every
required field — `split(".")[2]` raises `IndexError`. -/
theorem C2_counterexample :
    iterNodes [("a", sampleRecord)] = Except.error PyErr.indexError := by rfl

/-- C2 (amended): for every events mapping whose records each contain the
required fields, whose identifiers each have at least four dot-separated
segments, and whose lexicographically first identifier has non-empty 3rd and
4th segments, `run()` completes and returns a node list without raising. -/
theorem C2_run_ok_amended {events : List (String × Record)}
    (hflds : ∀ p ∈ events, ∀ f ∈ requiredFields, (List.lookup f p.2).isSome)
    (hlen : ∀ k ∈ events.map Prod.fst, 4 ≤ (splitOnDot k).length)
    (hfirst : ∀ k0, (sortedKeys events).head? = some k0 →
        domainOf k0 ≠ "" ∧ subjectOf k0 ≠ "") :
    ∃ out, iterNodes events = Except.ok out := by
  have hgood : ∀ k ∈ sortedKeys events, GoodKey events k := by
    intro k hks
    have hmemf : k ∈ events.map Prod.fst :=
      ((List.perm_insertionSort (fun a b => pyLe a b = true)
        (events.map Prod.fst)).mem_iff).mp hks
    refine ⟨hlen k hmemf, ?_⟩
    obtain ⟨r, hr⟩ := lookup_isSome_of_mem_keys hmemf
    exact ⟨r, hr, hflds (k, r) (mem_of_lookup_eq_some hr)⟩
  cases hsk : sortedKeys events with
  | nil =>
    refine ⟨yieldedNodes initState, ?_⟩
    simp only [iterNodes, hsk, bind, Except.bind, List.foldlM_nil]
    rfl
  | cons k0 ks =>
    obtain ⟨hd3, hs4⟩ := hfirst k0 (by rw [hsk]; rfl)
    obtain ⟨st1, h1, hd1, hs1⟩ :=
      stepEvent_ok_first (hgood k0 (by rw [hsk]; exact List.mem_cons_self _ _))
        hd3 hs4
    obtain ⟨st2, h2⟩ := foldlM_ok_of_good ks st1
      (fun k hk => hgood k (by rw [hsk]; exact List.mem_cons_of_mem _ hk))
      hd1 hs1
    refine ⟨yieldedNodes st2, ?_⟩
    simp only [iterNodes, bind, Except.bind, hsk, List.foldlM_cons, h1,
               exceptBind_ok, h2]

/-- C2 witness: the amended theorem applied to a one-event mapping with a
well-formed identifier. -/
theorem C2_witness : ∃ out, iterNodes w2events = Except.ok out := by
  apply C2_run_ok_amended
  · decide
  · decide
  · intro k0 h
    rw [show (sortedKeys w2events).head? = some "org.edu.domain.subject.v1"
        from rfl] at h
    obtain rfl : "org.edu.domain.subject.v1" = k0 := Option.some.inj h
    exact ⟨by decide, by decide⟩

/-- C3: whenever `run()` returns a node list, the leaf event sections appear
in the returned tree, in document order, carrying the event-type identifiers
as titles, in ascending lexicographic order of the full identifier. -/
theorem C3_leaves_sorted {events : List (String × Record)} {out : List Node}
    (hok : iterNodes events = Except.ok out) :
    (docLeaves out).map sectionTitleText = sortedKeys events
    ∧ List.Sorted (· ≤ ·) ((docLeaves out).map sectionTitleText) := by
  have hmap : (docLeaves out).map sectionTitleText = sortedKeys events := by
    rw [docLeaves_ok hok, List.map_map]
    have hco : (sectionTitleText ∘ fun k =>
        leafSection k ((List.lookup k events).getD [])) = id := by
      funext k
      rfl
    rw [hco, List.map_id]
  refine ⟨hmap, ?_⟩
  rw [hmap]
  exact (List.sorted_insertionSort (fun a b => pyLe a b = true)
    (events.map Prod.fst)).imp fun h => (pyLe_iff _ _).mp h

/-- C3 witness: on `w3events` (given in reverse order) the returned leaves
are sorted by event type. -/
theorem C3_witness :
    (docLeaves w3out).map sectionTitleText = sortedKeys w3events
    ∧ List.Sorted (· ≤ ·) ((docLeaves w3out).map sectionTitleText) :=
  C3_leaves_sorted (by rfl)

/-- C4: for an event whose identifier has at least four dot-separated
segments with non-empty 3rd and 4th segments, a record missing one of the
required fields `.. event_name:`, `.. event_data:`, `.. event_description:`,
`filename` or `line_number` makes `run()` raise the lookup error `KeyError`,
whereas a record carrying all required fields but no `.. event_key_field:`
is processed without raising. -/
theorem C4_required_field_lookup {et : String} {r : Record} {d s : String}
    (hd2 : (splitOnDot et)[2]? = some d)
    (hs3 : (splitOnDot et)[3]? = some s)
    (hdv : d ≠ "") (hsv : s ≠ "") :
    ((∃ f ∈ requiredFields, List.lookup f r = none) →
      iterNodes [(et, r)] = Except.error PyErr.keyError)
    ∧ (List.lookup ".. event_key_field:" r = none →
       (∀ f ∈ requiredFields, (List.lookup f r).isSome) →
       ∃ out, iterNodes [(et, r)] = Except.ok out) := by
  have hsk : sortedKeys [(et, r)] = [et] := rfl
  have hlook : List.lookup et [(et, r)] = some r := by
    rw [lookup_cons_eq]
    simp
  have hlen : 4 ≤ (splitOnDot et).length := by
    obtain ⟨h3, -⟩ := List.getElem?_eq_some.mp hs3
    omega
  have hdv3 : domainOf et ≠ "" := by
    rw [domainOf, List.getD_eq_getElem?_getD, hd2]
    exact hdv
  have hsv4 : subjectOf et ≠ "" := by
    rw [subjectOf, List.getD_eq_getElem?_getD, hs3]
    exact hsv
  constructor
  · intro hmiss
    have hmk := @mkEventSection_err_of et r hmiss
    simp only [iterNodes, hsk, List.foldlM_cons, List.foldlM_nil, stepEvent,
               hlook, bind, Except.bind, processEvent, hd2, hs3, hmk]
    rw [if_pos (show d ≠ initState.current_domain from hdv)]
    dsimp only
    rw [if_pos (show s ≠ initState.current_subject from hsv)]
    rfl
  · intro hnokf hflds
    have hg : GoodKey [(et, r)] et := ⟨hlen, r, hlook, hflds⟩
    obtain ⟨st1, h1, hd1, hs1⟩ := stepEvent_ok_first hg hdv3 hsv4
    refine ⟨yieldedNodes st1, ?_⟩
    simp only [iterNodes, hsk, List.foldlM_cons, List.foldlM_nil, h1, bind,
               Except.bind, exceptBind_ok]
    rfl

/-- C4 witness: a record missing `.. event_data:` raises `KeyError`; the same
identifier with a complete record (and no key field) succeeds. -/
theorem C4_witness :
    iterNodes [("p.q.dom.subj", recordMissingData)]
      = Except.error PyErr.keyError
    ∧ ∃ out, iterNodes [("p.q.dom.subj", sampleRecord)] = Except.ok out := by
  constructor
  · exact (@C4_required_field_lookup "p.q.dom.subj" recordMissingData
      "dom" "subj" rfl rfl (by decide) (by decide)).1
      ⟨".. event_data:", by simp [requiredFields], rfl⟩
  · exact (@C4_required_field_lookup "p.q.dom.subj" sampleRecord
      "dom" "subj" rfl rfl (by decide) (by decide)).2 rfl (by decide)

/-- C5: whenever `run()` returns a node list for a mapping with distinct
keys, each event of the mapping yields exactly one leaf section among the
leaf event sections of the tree: a section with id
`openedxevent-<event_type>`, titled by the event type, containing in order a
`Description:` paragraph, a `Signal name:` paragraph with the name as a
literal, optionally (iff the key field is non-empty) an `Event key field:`
paragraph with the key field as a literal, an `Event data:` paragraph with
the data as a literal, and a `Defined at: <filename> (line <line_number>)`
paragraph. -/
theorem C5_leaf_structure {events : List (String × Record)} {out : List Node}
    {et : String} {r : Record} {nm dt ds fn ln : String}
    (hok : iterNodes events = Except.ok out)
    (hnd : (events.map Prod.fst).Nodup)
    (hmem : (et, r) ∈ events)
    (h1 : List.lookup ".. event_name:" r = some nm)
    (h2 : List.lookup ".. event_data:" r = some dt)
    (h3 : List.lookup ".. event_description:" r = some ds)
    (h4 : List.lookup "filename" r = some fn)
    (h5 : List.lookup "line_number" r = some ln) :
    ∃ leaf pre post,
      leaf = Node.sect ["openedxevent-" ++ et]
        ([Node.title et ["title-" ++ et],
          Node.paragraph [Node.text ("Description: " ++ ds)],
          Node.paragraph [Node.text "Signal name: ", Node.literal nm]]
         ++ (if getFieldD r ".. event_key_field:" "" ≠ "" then
              [Node.paragraph [Node.text "Event key field: ",
                  Node.literal (getFieldD r ".. event_key_field:" "")]]
            else [])
         ++ [Node.paragraph [Node.text "Event data: ", Node.literal dt],
             Node.paragraph [Node.text ("Defined at: " ++ fn ++ " (line "
                ++ ln ++ ")")]])
      ∧ docLeaves out = pre ++ leaf :: post
      ∧ leaf ∉ pre ∧ leaf ∉ post := by
  have hlookup : List.lookup et events = some r :=
    lookup_eq_some_of_mem hnd hmem
  have hL : leafSection et r
      = Node.sect ["openedxevent-" ++ et]
        ([Node.title et ["title-" ++ et],
          Node.paragraph [Node.text ("Description: " ++ ds)],
          Node.paragraph [Node.text "Signal name: ", Node.literal nm]]
         ++ (if getFieldD r ".. event_key_field:" "" ≠ "" then
              [Node.paragraph [Node.text "Event key field: ",
                  Node.literal (getFieldD r ".. event_key_field:" "")]]
            else [])
         ++ [Node.paragraph [Node.text "Event data: ", Node.literal dt],
             Node.paragraph [Node.text ("Defined at: " ++ fn ++ " (line "
                ++ ln ++ ")")]]) := by
    simp [leafSection, mkEventSectionCore, getFieldD, h1, h2, h3, h4, h5]
  have hinj : ∀ a : String,
      leafSection a ((List.lookup a events).getD []) = leafSection et r →
      a = et := by
    intro a ha
    unfold leafSection mkEventSectionCore at ha
    injection ha with hids _
    injection hids with hid _
    exact string_append_cancel hid
  have hmemk : et ∈ sortedKeys events := by
    have hm : et ∈ events.map Prod.fst := List.mem_map.mpr ⟨(et, r), hmem, rfl⟩
    exact ((List.perm_insertionSort (fun a b => pyLe a b = true)
      (events.map Prod.fst)).mem_iff).mpr hm
  have hnds : (sortedKeys events).Nodup :=
    (List.perm_insertionSort (fun a b => pyLe a b = true)
      (events.map Prod.fst)).symm.nodup hnd
  obtain ⟨A, B, hAB⟩ := List.append_of_mem hmemk
  have hno : et ∉ A ∧ et ∉ B := by
    rw [hAB] at hnds
    have hmid := List.nodup_middle.mp hnds
    rw [List.nodup_cons] at hmid
    constructor
    · intro hA
      exact hmid.1 (List.mem_append_left _ hA)
    · intro hB
      exact hmid.1 (List.mem_append_right _ hB)
  have hsplit : docLeaves out
      = (A.map fun k => leafSection k ((List.lookup k events).getD []))
        ++ leafSection et r ::
          (B.map fun k => leafSection k ((List.lookup k events).getD [])) := by
    rw [docLeaves_ok hok, hAB, List.map_append, List.map_cons, hlookup]
    rfl
  refine ⟨leafSection et r, _, _, hL, hsplit, ?_, ?_⟩
  · intro hLA
    obtain ⟨a, haA, hfa⟩ := List.mem_map.mp hLA
    exact hno.1 (hinj a hfa ▸ haA)
  · intro hLB
    obtain ⟨a, haB, hfa⟩ := List.mem_map.mp hLB
    exact hno.2 (hinj a hfa ▸ haB)

/-- C5 witness: the unique leaf section emitted for the single event of
`w5events`, whose record carries a non-empty key field. -/
theorem C5_witness :
    ∃ leaf pre post,
      leaf = Node.sect ["openedxevent-" ++ "q.r.dom5.subj5.ev"]
        ([Node.title "q.r.dom5.subj5.ev" ["title-" ++ "q.r.dom5.subj5.ev"],
          Node.paragraph [Node.text ("Description: " ++ "a sample event")],
          Node.paragraph [Node.text "Signal name: ",
                          Node.literal "org.signal.NAME"]]
         ++ (if getFieldD sampleRecordKf ".. event_key_field:" "" ≠ "" then
              [Node.paragraph [Node.text "Event key field: ",
                  Node.literal
                    (getFieldD sampleRecordKf ".. event_key_field:" "")]]
            else [])
         ++ [Node.paragraph [Node.text "Event data: ",
                             Node.literal "SomeData"],
             Node.paragraph [Node.text ("Defined at: " ++ "events.py"
                ++ " (line " ++ "12" ++ ")")]])
      ∧ docLeaves w5out = pre ++ leaf :: post
      ∧ leaf ∉ pre ∧ leaf ∉ post :=
  C5_leaf_structure (show iterNodes w5events = Except.ok w5out from rfl)
    (by decide)
    (show ("q.r.dom5.subj5.ev", sampleRecordKf) ∈ w5events from
      List.mem_cons_self _ _)
    rfl rfl rfl rfl rfl

/-- C6 counterexample: the claim counts two registered configuration values,
but `setup(app)` registers three. -/
theorem C6_counterexample :
    setup.config_values.length = 3 ∧ setup.config_values.length ≠ 2 := by
  decide

/-- C6 (amended): `setup(app)` registers exactly three configuration values —
`openedxevents_source_path` (default the absolute path of `".."`, rebuild
`env`), `openedxevents_repo_url` (default `""`), and
`openedxevents_repo_version` (default `"main"`) — and exactly one directive
name, `openedxevents`, and nothing else. -/
theorem C6_registrations :
    setup.config_values =
      [("openedxevents_source_path", ConfigDefault.abspath "..", "env"),
       ("openedxevents_repo_url", ConfigDefault.str "", "env"),
       ("openedxevents_repo_version", ConfigDefault.str "main", "env")]
    ∧ setup.directives = ["openedxevents"] := ⟨rfl, rfl⟩

/-- C7: whenever `run()` returns a node list, every returned node is a domain
section (id `openedxevent-domain-<domain>`, title first) whose remaining
children are subject sections (id `openedxevent-subject-<subject>`, title
first), whose remaining children are leaf event sections containing no
further sections — a self-contained fragment in which every subject section
is the child of a returned domain section and every leaf the child of a
subject section. -/
theorem C7_tree_shape {events : List (String × Record)} {out : List Node}
    (hok : iterNodes events = Except.ok out) :
    ∀ n ∈ out, ∃ dname subjNodes,
      n = Node.sect ["openedxevent-domain-" ++ dname]
        (Node.title ("Architectural subdomain: " ++ dname) [] :: subjNodes)
      ∧ ∀ m ∈ subjNodes, ∃ sname evNodes,
        m = Node.sect ["openedxevent-subject-" ++ sname]
          (Node.title ("Subject: " ++ sname) [] :: evNodes)
        ∧ ∀ e ∈ evNodes,
            (∃ et ev, e = leafSection et ev) ∧ childSections e = [] := by
  obtain ⟨st, hinv, rfl⟩ := iterNodes_ok_elim hok
  intro n hn
  unfold yieldedNodes at hn
  obtain ⟨d, hd, rfl⟩ := List.mem_map.mp hn
  refine ⟨d.name, _, rfl, ?_⟩
  intro m hm
  obtain ⟨i, hi, rfl⟩ := List.mem_map.mp hm
  refine ⟨(st.subjects.getD i ⟨"", []⟩).name, _, rfl, ?_⟩
  intro e he
  have hiv : i < st.subjects.length := by
    have hmem : i ∈ st.domains.flatMap DomainAcc.subjects :=
      List.mem_flatMap.mpr ⟨d, hd, hi⟩
    rw [hinv.idx] at hmem
    exact List.mem_range.mp hmem
  have hmemsubj : st.subjects.getD i ⟨"", []⟩ ∈ st.subjects := by
    rw [List.getD_eq_getElem _ _ hiv]
    exact List.getElem_mem hiv
  have hflat : e ∈ st.subjects.flatMap SubjectAcc.events :=
    List.mem_flatMap.mpr ⟨_, hmemsubj, he⟩
  rw [hinv.flat] at hflat
  obtain ⟨k, _, rfl⟩ := List.mem_map.mp hflat
  exact ⟨⟨k, _, rfl⟩, childSections_leafSection _ _⟩

/-- C7 witness: the single returned node of `run()` on `w7events` has the
domain-section shape. -/
theorem C7_witness :
    ∃ dname subjNodes,
      w7out.getD 0 (Node.text "")
        = Node.sect ["openedxevent-domain-" ++ dname]
          (Node.title ("Architectural subdomain: " ++ dname) [] :: subjNodes)
      ∧ ∀ m ∈ subjNodes, ∃ sname evNodes,
        m = Node.sect ["openedxevent-subject-" ++ sname]
          (Node.title ("Subject: " ++ sname) [] :: evNodes)
        ∧ ∀ e ∈ evNodes,
            (∃ et ev, e = leafSection et ev) ∧ childSections e = [] :=
  C7_tree_shape (show iterNodes w7events = Except.ok w7out from rfl)
    (w7out.getD 0 (Node.text "")) (List.mem_cons_self _ _)

/-- C8: on an empty events mapping, `run()` returns the empty node list: no
domain, subject or event sections are produced. -/
theorem C8_empty_mapping : iterNodes [] = Except.ok [] := rfl

/-- C9: the `Event key field:` paragraph appears among the children of an
event's leaf section iff the record's `.. event_key_field:` value is a
non-empty string, and a record whose key-field value is the empty string
renders identically to a record lacking the field entirely (all other fields
being equal). -/
theorem C9_key_field {et : String} {r : Record} {n : Node}
    (hmk : mkEventSection et r = Except.ok n) :
    ((∃ v, Node.paragraph [Node.text "Event key field: ", Node.literal v]
        ∈ nodeChildren n) ↔ getFieldD r ".. event_key_field:" "" ≠ "")
    ∧ ∀ r2 : Record,
        (∀ f, f ≠ ".. event_key_field:" →
          List.lookup f r = List.lookup f r2) →
        List.lookup ".. event_key_field:" r = some "" →
        List.lookup ".. event_key_field:" r2 = none →
        mkEventSection et r = mkEventSection et r2 := by
  constructor
  · rw [mkEventSection_ok hmk]
    constructor
    · rintro ⟨v, hv⟩
      by_contra hkf
      simp [leafSection, mkEventSectionCore, nodeChildren, hkf] at hv
    · intro hkf
      refine ⟨getFieldD r ".. event_key_field:" "", ?_⟩
      simp [leafSection, mkEventSectionCore, nodeChildren, hkf]
  · intro r2 hagree hsome hnone
    have e1 : List.lookup ".. event_name:" r
        = List.lookup ".. event_name:" r2 := hagree _ (by decide)
    have e2 : List.lookup ".. event_data:" r
        = List.lookup ".. event_data:" r2 := hagree _ (by decide)
    have e3 : List.lookup ".. event_description:" r
        = List.lookup ".. event_description:" r2 := hagree _ (by decide)
    have e4 : List.lookup "filename" r
        = List.lookup "filename" r2 := hagree _ (by decide)
    have e5 : List.lookup "line_number" r
        = List.lookup "line_number" r2 := hagree _ (by decide)
    simp only [mkEventSection, getField, getFieldD, e1, e2, e3, e4, e5,
               hsome, hnone, Option.getD_some, Option.getD_none]

/-- C9 witness: for the leaf built from `sampleRecordKf`, the key-field
paragraph is present iff the stored key field is non-empty. -/
theorem C9_witness :
    (∃ v, Node.paragraph [Node.text "Event key field: ", Node.literal v]
        ∈ nodeChildren w9node)
    ↔ getFieldD sampleRecordKf ".. event_key_field:" "" ≠ "" :=
  (C9_key_field (show mkEventSection "w.x.dom9.subj9" sampleRecordKf
    = Except.ok w9node from rfl)).1

/-- C10: whenever `run()` returns a node list, the ids of the returned
top-level sections are, in order, `openedxevent-domain-<d>` for the heads of
the maximal runs of equal adjacent 3rd segments of the sorted event types:
exactly one top-level domain section per run, so a domain whose event types
are not contiguous in sorted order yields several distinct top-level sections
carrying the same id. -/
theorem C10_domain_runs {events : List (String × Record)} {out : List Node}
    (hok : iterNodes events = Except.ok out) :
    topIds out = (runHeads "" ((sortedKeys events).map domainOf)).map
      (fun d => ["openedxevent-domain-" ++ d]) := by
  obtain ⟨st, hinv, rfl⟩ := iterNodes_ok_elim hok
  rw [← hinv.dom_names]
  unfold topIds yieldedNodes
  rw [List.map_map, List.map_map]
  rfl

/-- C10 witness: on `w10events`, whose sorted domains alternate `x`, `y`,
`x`, the directive returns three top-level sections, two of which carry the
same id `openedxevent-domain-x`. -/
theorem C10_witness :
    topIds w10out = [["openedxevent-domain-x"], ["openedxevent-domain-y"],
                     ["openedxevent-domain-x"]] := by
  rw [C10_domain_runs (show iterNodes w10events = Except.ok w10out from rfl)]
  rfl
